import Mathlib

/-!
Verification of the WildStar archive reader
(`tools/archive_extractor/archive_extractor.py`).

The Python reader is shallowly embedded below.  A file's contents are a
list of byte values (`Bytes`); the sequential `f.seek`/`f.read`/
`struct.unpack` calls of the source are rendered as reads at explicit
absolute positions (a short read that `struct.unpack` would reject
becomes `none`/`.error .truncated`; a raw `f.read` that the source never
unpacks is rendered as a possibly-short slice, exactly as Python returns
it).  Python dicts become association lists with Python's
insertion-order/overwrite semantics, and the recursive directory walk is
embedded with an explicit fuel parameter: `none` means the recursion did
not finish within the given fuel, so divergence of the source recursion
is `∀ fuel, result = none`.
-/

set_option maxRecDepth 10000

/-- Bytes of a file: each element is one byte value (0..255 in real files;
the parsers never assume the bound). -/
abbrev Bytes := List Nat

/-- Little-endian value of a byte list, as `struct.unpack` with formats
`<I`/`<Q` computes it: the first byte is least significant. -/
def leNat : Bytes → Nat
  | [] => 0
  | b :: rest => b + 256 * leNat rest

/-- Raw `f.read(len)` after `f.seek(pos)`: returns the available bytes,
possibly fewer than `len` near end of file (Python semantics). -/
def readRaw (data : Bytes) (pos len : Nat) : Bytes :=
  (data.drop pos).take len

/-- A read of exactly `len` bytes followed by `struct.unpack`: Python's
`struct.unpack` raises when the buffer is short, so the result is `none`
unless all `len` bytes are available. -/
def readU (data : Bytes) (pos len : Nat) : Option Nat :=
  if pos + len ≤ data.length then some (leNat (readRaw data pos len)) else none

/-- Index of the first zero byte of a list, if any. -/
def findZeroIdx : Bytes → Option Nat
  | [] => none
  | b :: rest => if b = 0 then some 0 else (findZeroIdx rest).map (· + 1)

/-- Python `bytes.find(b'\x00', start)`: smallest index `i ≥ start` with a
zero byte, else `-1`. -/
def findZeroFrom (s : Bytes) (start : Nat) : Int :=
  match findZeroIdx (s.drop start) with
  | some j => ((start + j : Nat) : Int)
  | none => -1

/-- Python slice `s[a:e]` where `a` is a non-negative index and `e` may be
negative (counted from the end) — the form produced at
`archive_extractor.py` lines 250-251/267-268, where `e` is the result of
`bytes.find` and is therefore either a valid index or `-1`. -/
def pySlice (s : Bytes) (a : Nat) (e : Int) : Bytes :=
  let stop : Nat := if e < 0 then s.length - (-e).toNat else min e.toNat s.length
  (s.drop a).take (stop - a)

/-- Best-effort UTF-8 decoding, modelling Python
`bytes.decode('utf-8', errors='replace')`: well-formed sequences decode
to their scalar value, anything else yields U+FFFD and resynchronises.
Exact on the ASCII range, which is the only range the proofs exercise. -/
def utf8Decode : Bytes → List Char
  | [] => []
  | b :: rest =>
    if b < 0x80 then Char.ofNat b :: utf8Decode rest
    else if 0xC2 ≤ b ∧ b ≤ 0xDF then
      match rest with
      | b2 :: rest2 =>
        if 0x80 ≤ b2 ∧ b2 ≤ 0xBF then
          Char.ofNat ((b - 0xC0) * 64 + (b2 - 0x80)) :: utf8Decode rest2
        else Char.ofNat 0xFFFD :: utf8Decode (b2 :: rest2)
      | [] => [Char.ofNat 0xFFFD]
    else if 0xE0 ≤ b ∧ b ≤ 0xEF then
      match rest with
      | b2 :: b3 :: rest3 =>
        if 0x80 ≤ b2 ∧ b2 ≤ 0xBF ∧ 0x80 ≤ b3 ∧ b3 ≤ 0xBF then
          Char.ofNat ((b - 0xE0) * 4096 + (b2 - 0x80) * 64 + (b3 - 0x80)) :: utf8Decode rest3
        else Char.ofNat 0xFFFD :: utf8Decode (b2 :: b3 :: rest3)
      | r => Char.ofNat 0xFFFD :: utf8Decode r
    else if 0xF0 ≤ b ∧ b ≤ 0xF4 then
      match rest with
      | b2 :: b3 :: b4 :: rest4 =>
        if 0x80 ≤ b2 ∧ b2 ≤ 0xBF ∧ 0x80 ≤ b3 ∧ b3 ≤ 0xBF ∧ 0x80 ≤ b4 ∧ b4 ≤ 0xBF then
          Char.ofNat ((b - 0xF0) * 262144 + (b2 - 0x80) * 4096 + (b3 - 0x80) * 64 + (b4 - 0x80))
            :: utf8Decode rest4
        else Char.ofNat 0xFFFD :: utf8Decode (b2 :: b3 :: b4 :: rest4)
      | r => Char.ofNat 0xFFFD :: utf8Decode r
    else Char.ofNat 0xFFFD :: utf8Decode rest

/-- Python `str.lower` on one character, for the ASCII range (the only
range the archive names and the proofs exercise). -/
def pyLowerChar (c : Char) : Char :=
  match c with
  | 'A' => 'a' | 'B' => 'b' | 'C' => 'c' | 'D' => 'd' | 'E' => 'e' | 'F' => 'f'
  | 'G' => 'g' | 'H' => 'h' | 'I' => 'i' | 'J' => 'j' | 'K' => 'k' | 'L' => 'l'
  | 'M' => 'm' | 'N' => 'n' | 'O' => 'o' | 'P' => 'p' | 'Q' => 'q' | 'R' => 'r'
  | 'S' => 's' | 'T' => 't' | 'U' => 'u' | 'V' => 'v' | 'W' => 'w' | 'X' => 'x'
  | 'Y' => 'y' | 'Z' => 'z'
  | c => c

/-- Python `str.lower()`. -/
def strLower (s : String) : String :=
  String.mk (s.data.map pyLowerChar)

/-- Python `str.replace("\\", "/")` (single-character replacement). -/
def replaceBackslash (s : String) : String :=
  String.mk (s.data.map fun c => if c = '\\' then '/' else c)

/-- The query normalisation `path.lower().replace("\\", "/")` applied by
`get_file_info` (line 303) and to patterns by `list_files` (line 295). -/
def normalizeQuery (s : String) : String :=
  replaceBackslash (strLower s)

/-- Python dict lookup `d.get(k)`. -/
def dictGet {α β : Type} [DecidableEq α] : List (α × β) → α → Option β
  | [], _ => none
  | (k', v') :: rest, k => if k' = k then some v' else dictGet rest k

/-- Python dict assignment `d[k] = v`: overwrite in place if the key is
present (keeping its position), else append (insertion order). -/
def dictSet {α β : Type} [DecidableEq α] : List (α × β) → α → β → List (α × β)
  | [], k, v => [(k, v)]
  | (k', v') :: rest, k, v =>
    if k' = k then (k', v) :: rest else (k', v') :: dictSet rest k v

/-- Python `d.values()` in insertion order. -/
def dictValues {α β : Type} (d : List (α × β)) : List β :=
  d.map Prod.snd

/-- Magic constants (archive_extractor.py lines 26-28). -/
def PACK_MAGIC : Nat := 0x4B434150
def AIDX_MAGIC : Nat := 0x58444941
def AARC_MAGIC : Nat := 0x43524141

/-- Block header in a directory table (class `PackDirectoryHeader`):
an 8-byte offset and an 8-byte block size. -/
structure PackDirectoryHeader where
  offset : Nat
  block_size : Nat
deriving DecidableEq, Repr, Inhabited

/-- File entry metadata (class `FileEntry`). -/
structure FileEntry where
  name : String
  full_path : String
  flags : Nat
  uncompressed_size : Nat
  compressed_size : Nat
  sha_hash : Bytes
deriving DecidableEq, Repr, Inhabited

/-- Method `FileEntry.is_compressed` (line 54-55): `self.flags == 3`. -/
def FileEntry.is_compressed (e : FileEntry) : Bool :=
  e.flags == 3

/-- Archive entry mapping hash to block (class `AARCEntry`). -/
structure AARCEntry where
  block_index : Nat
  sha_hash : Bytes
  uncompressed_size : Nat
deriving DecidableEq, Repr, Inhabited

/-! ### Glob matching (`fnmatch.fnmatch` on a POSIX platform)

`list_files` (line 298) delegates pattern matching to Python's
`fnmatch.fnmatch`.  On POSIX `os.path.normcase` is the identity, so
`fnmatch` is a pure glob full-match: `*` matches any sequence, `?` any
single character, `[...]`/`[!...]` a (negated) character class with
ranges, and an unterminated `[` is a literal. -/

/-- Scan forward to the closing `]` of a character class, returning the
class content and the remainder of the pattern. -/
def scanClose : List Char → Option (List Char × List Char)
  | [] => none
  | c :: rest =>
    if c = ']' then some ([], rest)
    else (scanClose rest).map fun p => (c :: p.1, p.2)

/-- Class body after the optional `!`: a first content character (a `]`
in first position is literal content), then content up to the closing
`]`. -/
def parseClsBody : List Char → Option (List Char × List Char)
  | [] => none
  | c :: t => (scanClose t).map fun q => (c :: q.1, q.2)

/-- Parse a character class at a `[` (the `[` itself already consumed):
optional leading `!` negation, then the class body. `none` means no
closing `]` exists, in which case `fnmatch` treats the `[` literally. -/
def parseCls : List Char → Option (Bool × List Char × List Char)
  | [] => none
  | c :: t =>
    if c = '!' then (parseClsBody t).map fun p => (true, p.1, p.2)
    else (parseClsBody (c :: t)).map fun p => (false, p.1, p.2)

/-- Membership of a character in a class body, with `a-b` ranges compared
by code point (an inverted range matches nothing, a `-` in first or last
position is literal). -/
def inClass : List Char → Char → Bool
  | a :: '-' :: b :: rest, c =>
    (a ≤ c ∧ c ≤ b : Bool) || inClass rest c
  | a :: rest, c => a == c || inClass rest c
  | [], _ => false

theorem scanClose_length {l a rest} (h : scanClose l = some (a, rest)) :
    rest.length < l.length := by
  induction l generalizing a rest with
  | nil => simp [scanClose] at h
  | cons c t ih =>
    by_cases hc : c = ']'
    · simp [scanClose, hc] at h
      simp [← h.2]
    · simp only [scanClose, if_neg hc, Option.map_eq_some'] at h
      obtain ⟨⟨a', r'⟩, h1, h2⟩ := h
      have := ih h1
      simp only [Prod.mk.injEq] at h2
      simp [← h2.2]
      omega

theorem parseClsBody_length {l cls rest} (h : parseClsBody l = some (cls, rest)) :
    rest.length < l.length := by
  rcases l with _ | ⟨c, t⟩
  · simp [parseClsBody] at h
  · simp only [parseClsBody, Option.map_eq_some'] at h
    obtain ⟨⟨a', r'⟩, h1, h2⟩ := h
    have := scanClose_length h1
    simp only [Prod.mk.injEq] at h2
    simp [← h2.2]
    omega

theorem parseCls_length {l n cls rest} (h : parseCls l = some (n, cls, rest)) :
    rest.length < l.length := by
  rcases l with _ | ⟨c, t⟩
  · simp [parseCls] at h
  · by_cases hc : c = '!'
    · simp only [parseCls, if_pos hc, Option.map_eq_some'] at h
      obtain ⟨⟨a', r'⟩, h1, h2⟩ := h
      have := parseClsBody_length h1
      simp only [Prod.mk.injEq] at h2
      simp [← h2.2.2]
      omega
    · simp only [parseCls, if_neg hc, Option.map_eq_some'] at h
      obtain ⟨⟨a', r'⟩, h1, h2⟩ := h
      have := parseClsBody_length h1
      simp only [Prod.mk.injEq] at h2
      simp only [List.length_cons] at this
      simp [← h2.2.2]
      omega


/-- Full glob match of a pattern against a string (both as char lists),
following `fnmatch.translate` semantics. -/
def fnmatchL : List Char → List Char → Bool
  | [], s => s.isEmpty
  | p :: ps, s =>
    if p = '*' then
      fnmatchL ps s ||
        (match s with
         | [] => false
         | _ :: s2 => fnmatchL (p :: ps) s2)
    else if p = '?' then
      match s with
      | [] => false
      | _ :: s2 => fnmatchL ps s2
    else if p = '[' then
      match hcls : parseCls ps with
      | some (neg, cls, rest) =>
        (match s with
         | [] => false
         | c :: s2 => ((inClass cls c) != neg) && fnmatchL rest s2)
      | none =>
        match s with
        | [] => false
        | c :: s2 => (c == '[') && fnmatchL ps s2
    else
      match s with
      | [] => false
      | c :: s2 => (p == c) && fnmatchL ps s2
termination_by p s => p.length + s.length
decreasing_by
  all_goals simp_wf
  all_goals try omega
  all_goals have := parseCls_length hcls
  all_goals omega

/-! ### The parsers of `WildStarArchive`

Each `_parse_*` method of the source becomes a function from the backing
file's bytes.  Sequential `f.read` calls are rendered as reads at the
explicit absolute positions the file cursor would have; this coincides
with Python's cursor semantics because a short read pins the cursor at
end of file and every subsequent `struct.unpack` read then fails exactly
when the fixed-position read does. -/

/-- Error taxonomy: one constructor per `raise` site (`ValueError` for
magic/version/scan failures, `struct.error` for truncated reads,
`IndexError` for out-of-range block-list subscripts). -/
inductive PErr where
  | invalidMagic
  | unsupportedVersion
  | truncated
  | rootNotFound
  | aarcNotFound
  | indexError
deriving DecidableEq, Repr, Inhabited

/-- Sequential 16-byte `PackDirectoryHeader.read` calls (lines 147-150 /
187-190): `count` descriptors from `pos` onwards. -/
def readBlockTable (data : Bytes) : Nat → Nat → Except PErr (List PackDirectoryHeader)
  | _, 0 => .ok []
  | pos, n + 1 =>
    match readU data pos 8, readU data (pos + 8) 8 with
    | some off, some sz =>
      match readBlockTable data (pos + 16) n with
      | .ok rest => .ok (⟨off, sz⟩ :: rest)
      | .error e => .error e
    | _, _ => .error .truncated

/-- The common PACK header of both streams (lines 129-150 and 169-190,
identical code): magic, version 1, 528 reserved bytes, table offset at
536, table count at 544, then the block table. -/
def parsePackHeader (data : Bytes) : Except PErr (List PackDirectoryHeader) :=
  match readU data 0 4 with
  | none => .error .truncated
  | some magic =>
    if magic ≠ PACK_MAGIC then .error .invalidMagic
    else
      match readU data 4 4 with
      | none => .error .truncated
      | some version =>
        if version ≠ 1 then .error .unsupportedVersion
        else
          match readU data 536 8, readU data 544 4 with
          | some dir_table_start, some dir_count =>
            readBlockTable data dir_table_start dir_count
          | _, _ => .error .truncated

/-- The AIDX scan (lines 153-164): skip blocks shorter than 16 bytes,
read the sub-magic of each remaining block in order, and at the first
AIDX match read the root block index 12 bytes into the block; the
`for`-`else` raises if no block matches. -/
def findAIDX (data : Bytes) : List PackDirectoryHeader → Except PErr Nat
  | [] => .error .rootNotFound
  | b :: rest =>
    if b.block_size < 16 then findAIDX data rest
    else
      match readU data b.offset 4 with
      | none => .error .truncated
      | some m =>
        if m = AIDX_MAGIC then
          match readU data (b.offset + 12) 4 with
          | none => .error .truncated
          | some root => .ok root
        else findAIDX data rest

/-- Method `_parse_index_header`: PACK header plus AIDX scan, yielding
the index block table and the root block index. -/
def parse_index_header (idx : Bytes) : Except PErr (List PackDirectoryHeader × Nat) :=
  match parsePackHeader idx with
  | .error e => .error e
  | .ok blocks =>
    match findAIDX idx blocks with
    | .error e => .error e
    | .ok root => .ok (blocks, root)

/-- The AARC scan (lines 193-205): like the AIDX scan but reading an
entry count at offset 8 and a table block index at offset 12 of the
matching block. -/
def findAARC (data : Bytes) : List PackDirectoryHeader → Except PErr (Nat × Nat)
  | [] => .error .aarcNotFound
  | b :: rest =>
    if b.block_size < 16 then findAARC data rest
    else
      match readU data b.offset 4 with
      | none => .error .truncated
      | some m =>
        if m = AARC_MAGIC then
          match readU data (b.offset + 8) 4, readU data (b.offset + 12) 4 with
          | some cnt, some tbl => .ok (cnt, tbl)
          | _, _ => .error .truncated
        else findAARC data rest

/-- Sequential `AARCEntry.read` calls (lines 211-215): 32 bytes each
(4-byte block index, 20-byte digest, 8-byte size), inserted into the
digest-keyed dict in order; fewer than 32 available bytes make one of
the entry's `struct.unpack` calls raise. -/
def readAARCTable (data : Bytes) :
    Nat → Nat → List (Bytes × AARCEntry) → Except PErr (List (Bytes × AARCEntry) × Nat)
  | pos, 0, acc => .ok (acc, pos)
  | pos, n + 1, acc =>
    if pos + 32 ≤ data.length then
      let block_index := leNat (readRaw data pos 4)
      let sha := readRaw data (pos + 4) 20
      let unc := leNat (readRaw data (pos + 24) 8)
      readAARCTable data (pos + 32) n (dictSet acc sha ⟨block_index, sha, unc⟩)
    else .error .truncated

/-- Method `_parse_archive_header`: PACK header, AARC scan, resolve the
table block index in the block list (`IndexError` when out of range,
line 204), then read the digest table.  Also returns the data-stream
cursor position left after the table read. -/
def parse_archive_header (arc : Bytes) :
    Except PErr (List PackDirectoryHeader × List (Bytes × AARCEntry) × Nat) :=
  match parsePackHeader arc with
  | .error e => .error e
  | .ok blocks =>
    match findAARC arc blocks with
    | .error e => .error e
    | .ok (cnt, tbl) =>
      match blocks.get? tbl with
      | none => .error .indexError
      | some aarc_block =>
        match readAARCTable arc aarc_block.offset cnt [] with
        | .error e => .error e
        | .ok (table, end_pos) => .ok (blocks, table, end_pos)

/-- The raw fields of one file record before name resolution
(lines 258-264). -/
structure RawFile where
  name_offset : Nat
  flags : Nat
  uncompressed_size : Nat
  compressed_size : Nat
  sha_hash : Bytes
deriving DecidableEq, Repr, Inhabited

/-- One file record (lines 257-264): seven sequential reads of
4, 4, 4, 8, 8, 20 and 4 bytes — name offset, flags, an unknown field
(read and discarded), uncompressed size, compressed size, 20 digest
bytes (a raw read the source never unpacks, hence never failing), and a
block field (read and discarded).  Returns the record and the cursor
position after it. -/
def parseFileRecord (idx : Bytes) (pos : Nat) : Except PErr (RawFile × Nat) :=
  match readU idx pos 4 with
  | none => .error .truncated
  | some name_offset =>
    match readU idx (pos + 4) 4 with
    | none => .error .truncated
    | some flags =>
      match readU idx (pos + 12) 8 with
      | none => .error .truncated
      | some unc =>
        match readU idx (pos + 20) 8 with
        | none => .error .truncated
        | some comp =>
          let sha := readRaw idx (pos + 28) 20
          .ok (⟨name_offset, flags, unc, comp, sha⟩, pos + 4 + 4 + 4 + 8 + 8 + 20 + 4)

/-- The directory-record loop (lines 245-247): `count` records of two
4-byte reads each (name offset, child block index), returning the raw
pairs and the cursor position after them. -/
def parseDirRecords (idx : Bytes) : Nat → Nat → Except PErr (List (Nat × Nat) × Nat)
  | 0, pos => .ok ([], pos)
  | n + 1, pos =>
    match readU idx pos 4, readU idx (pos + 4) 4 with
    | some name_offset, some next_block =>
      match parseDirRecords idx n (pos + 8) with
      | .ok (rest, p) => .ok ((name_offset, next_block) :: rest, p)
      | .error e => .error e
    | _, _ => .error .truncated

/-- Name lookup in a block's string table (lines 250-251 / 267-268):
`name_end = string_data.find(b'\x00', name_offset)` followed by the
slice `string_data[name_offset:name_end]` and best-effort UTF-8
decoding.  When no NUL is found, `find` returns `-1` and the slice runs
to the second-to-last byte of the table. -/
def extractName (string_data : Bytes) (name_offset : Nat) : String :=
  String.mk (utf8Decode (pySlice string_data name_offset (findZeroFrom string_data name_offset)))

/-- The path→FileRecord map `self._files`. -/
abbrev FilesMap := List (String × FileEntry)

/-- The file-record loop (lines 257-280): parse each record, resolve its
name, build `full_path = path_prefix + name`, and insert the entry under
`full_path.lower()`. -/
def parseFileEntries (idx string_data : Bytes) (path_pfx : String) :
    Nat → Nat → FilesMap → Except PErr (FilesMap × Nat)
  | 0, pos, files => .ok (files, pos)
  | n + 1, pos, files =>
    match parseFileRecord idx pos with
    | .error e => .error e
    | .ok (r, pos2) =>
      let name := extractName string_data r.name_offset
      let full_path := path_pfx ++ name
      let entry : FileEntry :=
        ⟨name, full_path, r.flags, r.uncompressed_size, r.compressed_size, r.sha_hash⟩
      parseFileEntries idx string_data path_pfx n pos2 (dictSet files (strLower full_path) entry)

/-- Sub-directory path construction (line 253):
`f"{path_prefix}{name}/" if path_prefix else f"{name}/"`. -/
def mkSubdirPath (path_pfx name : String) : String :=
  if path_pfx = "" then name ++ "/" else path_pfx ++ name ++ "/"

/-- Line 234: `data_size = num_dirs * 8 + num_files * 56`. -/
def data_size (num_dirs num_files : Nat) : Nat :=
  num_dirs * 8 + num_files * 56

/-- Line 236: `string_table_size = block.block_size - 8 - data_size`,
a Python int that can go negative. -/
def string_table_size (block_size ds : Nat) : Int :=
  (block_size : Int) - 8 - (ds : Int)

/-- Line 239-240: `f.seek(string_table_offset); f.read(int(string_table_size))`.
A negative size makes Python's `read` consume to end of file. -/
def readStringTable (idx : Bytes) (pos : Nat) (size : Int) : Bytes :=
  if size < 0 then idx.drop pos else readRaw idx pos size.toNat

/-- Result of the recursive walk under fuel: `none` is exhausted fuel
(the source recursion still running), `some (.error e)` a raised
exception, `some (.ok m)` normal completion with the extended map. -/
abbrev WalkResult := Option (Except PErr FilesMap)

/-- The recursion loop at lines 283-284: recurse into each subdirectory
in order, threading `self._files`; an exception in a child aborts the
loop. -/
def walkChildren (recur : Nat → String → FilesMap → WalkResult) :
    List (Nat × String) → FilesMap → WalkResult
  | [], files => some (.ok files)
  | (next_block, subdir_path) :: rest, files =>
    match recur next_block subdir_path files with
    | none => none
    | some (.error e) => some (.error e)
    | some (.ok files2) => walkChildren recur rest files2

/-- Method `_parse_directory` (lines 222-284), with fuel for the
unbounded recursion.  Reads the two counts, computes the string-table
position from `data_size` (56 bytes per file record), reads the string
table, parses the directory records, then the file records (each
consuming 52 bytes), and finally recurses into the subdirectories.
Name resolution of subdirectories happens in the same string table the
source uses; evaluation order differences from the source involve only
pure computation. -/
def parseDirectory (idx : Bytes) (blocks : List PackDirectoryHeader) :
    Nat → Nat → String → FilesMap → WalkResult
  | 0, _, _, _ => none
  | fuel + 1, block_index, path_pfx, files =>
    match blocks.get? block_index with
    | none => some (.error .indexError)
    | some block =>
      match readU idx block.offset 4, readU idx (block.offset + 4) 4 with
      | some num_dirs, some num_files =>
        let entries_start := block.offset + 8
        let ds := data_size num_dirs num_files
        let string_data :=
          readStringTable idx (entries_start + ds) (string_table_size block.block_size ds)
        match parseDirRecords idx num_dirs entries_start with
        | .error e => some (.error e)
        | .ok (dir_recs, files_pos) =>
          match parseFileEntries idx string_data path_pfx num_files files_pos files with
          | .error e => some (.error e)
          | .ok (files1, _) =>
            let subdirs := dir_recs.map fun r =>
              (r.2, mkSubdirPath path_pfx (extractName string_data r.1))
            walkChildren (parseDirectory idx blocks fuel) subdirs files1
      | _, _ => some (.error .truncated)

/-- The child block indices a directory block recurses into: the second
field of each parsed directory record.  Mirrors exactly the recursion
targets of `parseDirectory`. -/
def dirChildren (idx : Bytes) (blocks : List PackDirectoryHeader) (block_index : Nat) : List Nat :=
  match blocks.get? block_index with
  | none => []
  | some block =>
    match readU idx block.offset 4 with
    | none => []
    | some num_dirs =>
      match parseDirRecords idx num_dirs (block.offset + 8) with
      | .error _ => []
      | .ok (dir_recs, _) => dir_recs.map Prod.snd

/-- Blocks reachable from the root by following child references. -/
inductive Reach (idx : Bytes) (blocks : List PackDirectoryHeader) (root : Nat) : Nat → Prop
  | refl : Reach idx blocks root root
  | step {b c : Nat} : Reach idx blocks root b → c ∈ dirChildren idx blocks b →
      Reach idx blocks root c

/-- The parsed, post-construction state of a `WildStarArchive` object:
the two block tables, the digest table, the path→record map, the root
block index, and the data stream's contents and cursor position (the
one piece of mutable state extraction touches). -/
structure ArchiveState where
  index_blocks : List PackDirectoryHeader
  archive_blocks : List PackDirectoryHeader
  aarc_table : List (Bytes × AARCEntry)
  files : FilesMap
  root_block : Nat
  archive_data : Bytes
  archive_pos : Nat
deriving DecidableEq, Repr, Inhabited

/-- Outcome of `open` together with the number of backing file handles
still open when it returns.  `open` (lines 103-110) opens both files
first and contains no `close` call and no try/finally, so both handles
are held on every return path, successful or raising. -/
structure OpenOutcome where
  result : Except PErr ArchiveState
  handlesOpen : Nat
deriving Repr

instance : Inhabited OpenOutcome := ⟨⟨.error .invalidMagic, 2⟩⟩

/-- Method `open` (lines 103-110): open both files, parse the index
header, the archive header, then the file tree.  `none` only when the
tree walk exceeds the given fuel. -/
def openArchive (idx arc : Bytes) (fuel : Nat) : Option OpenOutcome :=
  match parse_index_header idx with
  | .error e => some ⟨.error e, 2⟩
  | .ok (iblocks, root) =>
    match parse_archive_header arc with
    | .error e => some ⟨.error e, 2⟩
    | .ok (ablocks, aarc, end_pos) =>
      match parseDirectory idx iblocks fuel root "" [] with
      | none => none
      | some (.error e) => some ⟨.error e, 2⟩
      | some (.ok files) =>
        some ⟨.ok ⟨iblocks, ablocks, aarc, files, root, arc, end_pos⟩, 2⟩

/-- Method `list_files` (lines 286-299): lower-case and slash-normalise
the pattern, then return the (original-case) full paths of the entries
whose lower-cased full path matches it. -/
def list_files (st : ArchiveState) (pattern : String) : List String :=
  let pattern_lower := normalizeQuery pattern
  ((dictValues st.files).filter fun e =>
      fnmatchL pattern_lower.data (strLower e.full_path).data).map
    fun e => e.full_path

/-- Method `get_file_info` (lines 301-303):
`self._files.get(path.lower().replace("\\", "/"))`. -/
def get_file_info (st : ArchiveState) (path : String) : Option FileEntry :=
  dictGet st.files (normalizeQuery path)

/-- The distinct return paths of `extract_file` (lines 305-338): `None`
for an unknown path (line 316), `None` with a warning for a digest
missing from the AARC table (lines 321-322), an uncaught `IndexError`
for an out-of-range block index (line 325), `None` after a zlib failure
(line 336), or the data bytes. -/
inductive ExtractResult where
  | notFound
  | contentMissing
  | blockOutOfRange
  | corruptPayload
  | ok (data : Bytes)
deriving DecidableEq, Repr, Inhabited

/-- Method `extract_file` (lines 305-338), with `zlib.decompress`
supplied as an oracle function (`none` models `zlib.error`).  Reads
`block.block_size` bytes at the resolved block's offset, decompressing
only when `entry.is_compressed()`.  The returned state reflects the data
stream's moved cursor — the only field extraction writes. -/
def extract_file (st : ArchiveState) (decompress : Bytes → Option Bytes) (path : String) :
    ExtractResult × ArchiveState :=
  match get_file_info st path with
  | none => (.notFound, st)
  | some entry =>
    match dictGet st.aarc_table entry.sha_hash with
    | none => (.contentMissing, st)
    | some aarc_entry =>
      match st.archive_blocks.get? aarc_entry.block_index with
      | none => (.blockOutOfRange, st)
      | some block =>
        let compressed_data := readRaw st.archive_data block.offset block.block_size
        let st2 := { st with archive_pos := block.offset + compressed_data.length }
        if entry.is_compressed then
          match decompress compressed_data with
          | some data => (.ok data, st2)
          | none => (.corruptPayload, st2)
        else (.ok compressed_data, st2)

/-! ### Concrete archives used by counterexamples and witnesses -/

/-- Little-endian encoding of a 32-bit value. -/
def le32 (n : Nat) : Bytes :=
  [n % 256, n / 256 % 256, n / 65536 % 256, n / 16777216 % 256]

/-- Little-endian encoding of a 64-bit value. -/
def le64 (n : Nat) : Bytes :=
  le32 (n % 4294967296) ++ le32 (n / 4294967296)

/-- Bytes of one on-disk file record in a directory block (52 bytes as
the reader consumes them, laid out at 56-byte strides by the reader's
string-table arithmetic). -/
def fileRecBytes (name_off flags unc comp : Nat) (sha : Bytes) : Bytes :=
  le32 name_off ++ le32 flags ++ le32 0 ++ le64 unc ++ le64 comp ++ sha ++ le32 0

def shaA : Bytes := List.replicate 20 1
def shaB : Bytes := List.replicate 20 2

/-- A well-formed index file: PACK header, two blocks (an AIDX block at
588 pointing at root block 1, and a root directory block at 604 of
declared size 132 holding no directories and two files `a.txt`,
`b.txt`). -/
def cIdx : Bytes :=
  le32 PACK_MAGIC ++ le32 1 ++ List.replicate 528 0 ++ le64 556 ++ le32 2 ++ List.replicate 8 0
    ++ le64 588 ++ le64 16
    ++ le64 604 ++ le64 132
    ++ le32 AIDX_MAGIC ++ le32 1 ++ le32 0 ++ le32 1
    ++ le32 0 ++ le32 2
    ++ fileRecBytes 0 0 5 5 shaA
    ++ fileRecBytes 6 0 3 3 shaB
    ++ List.replicate 8 0
    ++ [97, 46, 116, 120, 116, 0, 98, 46, 116, 120, 116, 0]

/-- The matching archive file: PACK header, three blocks (AARC block at
604, its one-entry digest table at 620, and a 5-byte data block
`hello` at 652).  The table maps `shaA` only — `shaB` is deliberately
absent. -/
def cArc : Bytes :=
  le32 PACK_MAGIC ++ le32 1 ++ List.replicate 528 0 ++ le64 556 ++ le32 3 ++ List.replicate 8 0
    ++ le64 604 ++ le64 16
    ++ le64 620 ++ le64 32
    ++ le64 652 ++ le64 5
    ++ le32 AARC_MAGIC ++ le32 1 ++ le32 1 ++ le32 1
    ++ le32 2 ++ shaA ++ le64 5
    ++ [104, 101, 108, 108, 111]

def entryA : FileEntry := ⟨"a.txt", "a.txt", 0, 5, 5, shaA⟩
def entryB : FileEntry := ⟨"b.txt", "b.txt", 0, 3, 3, shaB⟩

/-- The state `openArchive cIdx cArc` constructs. -/
def cSt : ArchiveState :=
  ⟨[⟨588, 16⟩, ⟨604, 132⟩], [⟨604, 16⟩, ⟨620, 32⟩, ⟨652, 5⟩],
   [(shaA, ⟨2, shaA, 5⟩)], [("a.txt", entryA), ("b.txt", entryB)], 1, cArc, 652⟩

/-- An index file whose PACK magic is wrong (all zeros). -/
def badIdx : Bytes := [0, 0, 0, 0]

/-- A directory block whose single subdirectory record points back at
the block itself: `cycBlocks` block 0 covers `cycIdx` (20 bytes: one
directory record naming `d` with child block 0, no files). -/
def cycIdx : Bytes := le32 1 ++ le32 0 ++ le32 0 ++ le32 0 ++ [100, 0, 0, 0]
def cycBlocks : List PackDirectoryHeader := [⟨0, 20⟩]

/-- A directory block with one file whose name offset finds no NUL: the
string table is `[120, 121]` (`xy`, unterminated). -/
def nonulIdx : Bytes :=
  le32 0 ++ le32 1 ++ fileRecBytes 0 0 1 1 (List.replicate 20 0)
    ++ List.replicate 4 0 ++ [120, 121]
def nonulBlocks : List PackDirectoryHeader := [⟨0, 66⟩]
def nonulEntry : FileEntry := ⟨"x", "x", 0, 1, 1, List.replicate 20 0⟩

/-- A directory block with one file whose name contains a backslash:
string table `a\b.txt` NUL-terminated. -/
def bsIdx : Bytes :=
  le32 0 ++ le32 1 ++ fileRecBytes 0 0 2 2 (List.replicate 20 0)
    ++ List.replicate 4 0 ++ [97, 92, 98, 46, 116, 120, 116, 0]
def bsBlocks : List PackDirectoryHeader := [⟨0, 72⟩]
def bsEntry : FileEntry := ⟨"a\\b.txt", "a\\b.txt", 0, 2, 2, List.replicate 20 0⟩

/-- A state holding the backslash-named entry, as the walk builds it. -/
def bsSt : ArchiveState := ⟨bsBlocks, [], [], [("a\\b.txt", bsEntry)], 0, [], 0⟩

/-- A directory block with one file named `A.txt` (mixed case). -/
def okIdx : Bytes :=
  le32 0 ++ le32 1 ++ fileRecBytes 0 0 5 5 (List.replicate 20 0)
    ++ List.replicate 4 0 ++ [65, 46, 116, 120, 116, 0]
def okBlocks : List PackDirectoryHeader := [⟨0, 70⟩]
def okEntry : FileEntry := ⟨"A.txt", "A.txt", 0, 5, 5, List.replicate 20 0⟩
def okSt : ArchiveState := ⟨okBlocks, [], [], [("a.txt", okEntry)], 0, [], 0⟩

/-- An empty directory block (no directories, no files). -/
def leafIdx : Bytes := le32 0 ++ le32 0
def leafBlocks : List PackDirectoryHeader := [⟨0, 8⟩]

/-- A small state for extraction witnesses: one stored-raw entry `f`
whose digest resolves to the 3-byte data block `[9, 8, 7]`. -/
def sha5 : Bytes := List.replicate 20 5
def entry6 : FileEntry := ⟨"f", "f", 0, 3, 3, sha5⟩
def st6 : ArchiveState := ⟨[], [⟨0, 3⟩], [(sha5, ⟨0, sha5, 3⟩)], [("f", entry6)], 0, [9, 8, 7], 0⟩


/-! ### Helper lemmas -/

/-- Evaluation of a successful open on the concrete archive pair:
the parsed state is exactly `cSt` and both handles stay open. -/
theorem cOpen_eq : openArchive cIdx cArc 1 = some ⟨.ok cSt, 2⟩ := rfl

theorem fnmatch_star (s : List Char) : fnmatchL ['*'] s = true := by
  induction s with
  | nil => simp [fnmatchL]
  | cons c s ih => rw [fnmatchL]; simp [ih]

theorem dictGet_dictSet_self {α β : Type} [DecidableEq α] (l : List (α × β)) (k : α) (v : β) :
    dictGet (dictSet l k v) k = some v := by
  induction l with
  | nil => simp [dictSet, dictGet]
  | cons kv rest ih =>
    obtain ⟨k1, v1⟩ := kv
    by_cases hk : k1 = k
    · simp [dictSet, dictGet, hk]
    · simp [dictSet, dictGet, hk, ih]

theorem dictSet_mem {α β : Type} [DecidableEq α] {l : List (α × β)} {k k2 : α} {v v2 : β}
    (h : (k2, v2) ∈ dictSet l k v) : (k2, v2) ∈ l ∨ (k2 = k ∧ v2 = v) := by
  induction l with
  | nil => simp [dictSet] at h; right; exact ⟨h.1, h.2⟩
  | cons kv rest ih =>
    obtain ⟨k1, v1⟩ := kv
    by_cases hk : k1 = k
    · simp only [dictSet, if_pos hk, List.mem_cons] at h
      rcases h with h | h
      · right; obtain ⟨h1, h2⟩ := Prod.mk.injEq .. ▸ h
        exact ⟨h1 ▸ hk ▸ rfl, h2⟩
      · left; exact List.mem_cons_of_mem _ h
    · simp only [dictSet, if_neg hk, List.mem_cons] at h
      rcases h with h | h
      · left; exact h ▸ List.mem_cons_self _ _
      · rcases ih h with h2 | h2
        · left; exact List.mem_cons_of_mem _ h2
        · right; exact h2

theorem dictSet_keys_sub {α β : Type} [DecidableEq α] {l : List (α × β)} {k a : α} {v : β}
    (h : a ∈ (dictSet l k v).map Prod.fst) : a ∈ l.map Prod.fst ∨ a = k := by
  simp only [List.mem_map] at h
  obtain ⟨⟨k2, v2⟩, hmem, heq⟩ := h
  rcases dictSet_mem hmem with h2 | h2
  · left; exact List.mem_map.mpr ⟨(k2, v2), h2, heq⟩
  · right; exact heq ▸ h2.1 ▸ rfl

theorem dictSet_nodup {α β : Type} [DecidableEq α] {l : List (α × β)} (k : α) (v : β)
    (h : (l.map Prod.fst).Nodup) : ((dictSet l k v).map Prod.fst).Nodup := by
  induction l with
  | nil => simp [dictSet]
  | cons kv rest ih =>
    obtain ⟨k1, v1⟩ := kv
    simp only [List.map_cons, List.nodup_cons] at h
    by_cases hk : k1 = k
    · simp only [dictSet, if_pos hk, List.map_cons, List.nodup_cons]
      exact ⟨h.1, h.2⟩
    · simp only [dictSet, if_neg hk, List.map_cons, List.nodup_cons]
      refine ⟨fun hmem => ?_, ih h.2⟩
      rcases dictSet_keys_sub hmem with h2 | h2
      · exact h.1 h2
      · exact hk (h2 ▸ rfl)

theorem dictGet_of_mem {α β : Type} [DecidableEq α] {l : List (α × β)} {k : α} {v : β}
    (hnd : (l.map Prod.fst).Nodup) (h : (k, v) ∈ l) : dictGet l k = some v := by
  induction l with
  | nil => simp at h
  | cons kv rest ih =>
    obtain ⟨k1, v1⟩ := kv
    simp only [List.map_cons, List.nodup_cons] at hnd
    rcases List.mem_cons.mp h with h1 | h1
    · obtain ⟨e1, e2⟩ := Prod.mk.injEq .. ▸ h1.symm
      simp [dictGet, e1, e2]
    · have hne : k1 ≠ k := by
        intro he
        exact hnd.1 (List.mem_map.mpr ⟨(k, v), h1, (he ▸ rfl : (k, v).1 = k1)⟩)
      simp [dictGet, hne, ih hnd.2 h1]

theorem dictGet_mem_values {α β : Type} [DecidableEq α] {l : List (α × β)} {k : α} {v : β}
    (h : dictGet l k = some v) : v ∈ dictValues l := by
  induction l with
  | nil => simp [dictGet] at h
  | cons kv rest ih =>
    obtain ⟨k1, v1⟩ := kv
    by_cases hk : k1 = k
    · simp only [dictGet, if_pos hk, Option.some.injEq] at h
      simp [dictValues, h]
    · simp only [dictGet, if_neg hk] at h
      simp only [dictValues, List.map_cons, List.mem_cons]
      exact Or.inr (ih h)

/-- The invariant the walk maintains on `self._files`: keys are distinct
and each key is the lower-cased `full_path` of its entry. -/
def GoodMap (files : FilesMap) : Prop :=
  (files.map Prod.fst).Nodup ∧ ∀ k e, (k, e) ∈ files → k = strLower e.full_path

theorem goodMap_insert {files : FilesMap} {e : FileEntry} (h : GoodMap files) :
    GoodMap (dictSet files (strLower e.full_path) e) := by
  constructor
  · exact dictSet_nodup _ _ h.1
  · intro k x hm
    rcases dictSet_mem hm with h2 | h2
    · exact h.2 k x h2
    · rw [h2.1, h2.2]

theorem parseFileEntries_good (idx sd : Bytes) (pfx : String) :
    ∀ {n pos files files2 p2},
      parseFileEntries idx sd pfx n pos files = .ok (files2, p2) →
      GoodMap files → GoodMap files2 := by
  intro n
  induction n with
  | zero =>
    intro pos files files2 p2 h hg
    simp only [parseFileEntries, Except.ok.injEq, Prod.mk.injEq] at h
    rw [← h.1]; exact hg
  | succ n ih =>
    intro pos files files2 p2 h hg
    simp only [parseFileEntries] at h
    cases hr : parseFileRecord idx pos with
    | error e => rw [hr] at h; simp at h
    | ok rp =>
      obtain ⟨r, pos2⟩ := rp
      rw [hr] at h
      simp only [] at h
      exact ih h
        (@goodMap_insert files
          ⟨extractName sd r.name_offset, pfx ++ extractName sd r.name_offset, r.flags,
            r.uncompressed_size, r.compressed_size, r.sha_hash⟩ hg)

theorem walkChildren_good {recur : Nat → String → FilesMap → WalkResult}
    (hrec : ∀ nb sp files files2,
      recur nb sp files = some (.ok files2) → GoodMap files → GoodMap files2) :
    ∀ l files files2, walkChildren recur l files = some (.ok files2) →
      GoodMap files → GoodMap files2 := by
  intro l
  induction l with
  | nil =>
    intro files files2 h hg
    simp only [walkChildren, Option.some.injEq, Except.ok.injEq] at h
    rw [← h]; exact hg
  | cons x rest ih =>
    obtain ⟨nb, sp⟩ := x
    intro files files2 h hg
    simp only [walkChildren] at h
    cases hr : recur nb sp files with
    | none => rw [hr] at h; simp at h
    | some r =>
      cases r with
      | error e => rw [hr] at h; simp at h
      | ok files1 =>
        rw [hr] at h
        simp only [] at h
        exact ih files1 files2 h (hrec _ _ _ _ hr hg)

theorem parseDirectory_good (idx : Bytes) (blocks : List PackDirectoryHeader) :
    ∀ fuel bi pfx files files2,
      parseDirectory idx blocks fuel bi pfx files = some (.ok files2) →
      GoodMap files → GoodMap files2 := by
  intro fuel
  induction fuel with
  | zero => intro bi pfx files files2 h; simp [parseDirectory] at h
  | succ fuel ih =>
    intro bi pfx files files2 h hg
    simp only [parseDirectory] at h
    cases hb : blocks.get? bi with
    | none => rw [hb] at h; simp at h
    | some block =>
      rw [hb] at h
      simp only [] at h
      cases h1 : readU idx block.offset 4 with
      | none => rw [h1] at h; simp at h
      | some nd =>
        cases h2 : readU idx (block.offset + 4) 4 with
        | none => rw [h1, h2] at h; simp at h
        | some nf =>
          rw [h1, h2] at h
          simp only [] at h
          cases h3 : parseDirRecords idx nd (block.offset + 8) with
          | error e => rw [h3] at h; simp at h
          | ok dp =>
            obtain ⟨dir_recs, files_pos⟩ := dp
            rw [h3] at h
            simp only [] at h
            cases h4 : parseFileEntries idx
                (readStringTable idx (block.offset + 8 + data_size nd nf)
                  (string_table_size block.block_size (data_size nd nf)))
                pfx nf files_pos files with
            | error e => rw [h4] at h; simp at h
            | ok fp =>
              obtain ⟨files1, p1⟩ := fp
              rw [h4] at h
              simp only [] at h
              exact walkChildren_good (fun nb sp fs fs2 hc => ih nb sp fs fs2 hc) _ _ _ h
                (parseFileEntries_good _ _ _ h4 hg)

theorem pyLowerChar_eq_backslash {c : Char} (h : pyLowerChar c = '\\') : c = '\\' := by
  unfold pyLowerChar at h
  split at h <;> first | exact h | exact absurd h (by decide)

theorem map_if_backslash (l : List Char) (h : ∀ c ∈ l, c ≠ '\\') :
    l.map (fun c => if c = '\\' then '/' else c) = l := by
  induction l with
  | nil => rfl
  | cons c t ih =>
    simp only [List.map_cons]
    rw [if_neg (h c (List.mem_cons_self _ _)), ih fun x hx => h x (List.mem_cons_of_mem _ hx)]

theorem normalizeQuery_of_no_backslash {s : String} (h : ('\\' : Char) ∉ s.data) :
    normalizeQuery s = strLower s := by
  show replaceBackslash (strLower s) = strLower s
  unfold replaceBackslash
  rw [map_if_backslash]
  · intro c hc
    have hc2 : c ∈ s.data.map pyLowerChar := hc
    obtain ⟨c0, hc0, rfl⟩ := List.mem_map.mp hc2
    exact fun he => h (pyLowerChar_eq_backslash he ▸ hc0)

theorem parseFileRecord_pos {idx : Bytes} {pos : Nat} {r : RawFile} {pos2 : Nat}
    (h : parseFileRecord idx pos = .ok (r, pos2)) : pos2 = pos + 52 := by
  unfold parseFileRecord at h
  cases h1 : readU idx pos 4 with
  | none => rw [h1] at h; simp at h
  | some a =>
    rw [h1] at h
    cases h2 : readU idx (pos + 4) 4 with
    | none => rw [h2] at h; simp at h
    | some b =>
      rw [h2] at h
      cases h3 : readU idx (pos + 12) 8 with
      | none => rw [h3] at h; simp at h
      | some u =>
        rw [h3] at h
        cases h4 : readU idx (pos + 20) 8 with
        | none => rw [h4] at h; simp at h
        | some v =>
          rw [h4] at h
          simp only [Except.ok.injEq, Prod.mk.injEq] at h
          omega

theorem walkChildren_ne_none {recur : Nat → String → FilesMap → WalkResult}
    {l : List (Nat × String)}
    (h : ∀ nb sp files, (nb, sp) ∈ l → recur nb sp files ≠ none) :
    ∀ files, walkChildren recur l files ≠ none := by
  induction l with
  | nil => intro files; simp [walkChildren]
  | cons x rest ih =>
    obtain ⟨nb, sp⟩ := x
    intro files
    simp only [walkChildren]
    cases hr : recur nb sp files with
    | none => exact absurd hr (h nb sp files (List.mem_cons_self _ _))
    | some r =>
      cases r with
      | error e => simp
      | ok files2 =>
        exact ih (fun nb2 sp2 fs hm => h nb2 sp2 fs (List.mem_cons_of_mem _ hm)) files2

theorem walk_terminates_aux (idx : Bytes) (blocks : List PackDirectoryHeader)
    (m : Nat → Nat) (root : Nat)
    (hm : ∀ b c, Reach idx blocks root b → c ∈ dirChildren idx blocks b → m c < m b) :
    ∀ fuel b, Reach idx blocks root b → m b < fuel →
      ∀ pfx files, parseDirectory idx blocks fuel b pfx files ≠ none := by
  intro fuel
  induction fuel with
  | zero => intro b _ h; exact absurd h (Nat.not_lt_zero _)
  | succ fuel ih =>
    intro b hreach hlt pfx files hcontra
    simp only [parseDirectory] at hcontra
    cases hb : blocks.get? b with
    | none => rw [hb] at hcontra; simp at hcontra
    | some block =>
      rw [hb] at hcontra
      simp only [] at hcontra
      cases h1 : readU idx block.offset 4 with
      | none => rw [h1] at hcontra; simp at hcontra
      | some nd =>
        cases h2 : readU idx (block.offset + 4) 4 with
        | none => rw [h1, h2] at hcontra; simp at hcontra
        | some nf =>
          rw [h1, h2] at hcontra
          simp only [] at hcontra
          cases h3 : parseDirRecords idx nd (block.offset + 8) with
          | error e => rw [h3] at hcontra; simp at hcontra
          | ok dp =>
            obtain ⟨dir_recs, files_pos⟩ := dp
            rw [h3] at hcontra
            simp only [] at hcontra
            cases h4 : parseFileEntries idx
                (readStringTable idx (block.offset + 8 + data_size nd nf)
                  (string_table_size block.block_size (data_size nd nf)))
                pfx nf files_pos files with
            | error e => rw [h4] at hcontra; simp at hcontra
            | ok fp =>
              obtain ⟨files1, p1⟩ := fp
              rw [h4] at hcontra
              simp only [] at hcontra
              have hch : dirChildren idx blocks b = dir_recs.map Prod.snd := by
                simp only [dirChildren, hb, h1, h3]
              refine walkChildren_ne_none ?_ files1 hcontra
              intro nb sp fs hmem
              have hnb : nb ∈ dirChildren idx blocks b := by
                rw [hch]
                simp only [List.mem_map] at hmem ⊢
                obtain ⟨r0, hr0, heq⟩ := hmem
                exact ⟨r0, hr0, congrArg Prod.fst heq⟩
              have hstep := Reach.step hreach hnb
              exact ih nb hstep (lt_of_lt_of_le (hm b nb hreach hnb) (Nat.lt_succ_iff.mp hlt)) sp fs

theorem extract_file_preserves (st : ArchiveState) (decompress : Bytes → Option Bytes)
    (p : String) :
    (extract_file st decompress p).2.index_blocks = st.index_blocks ∧
    (extract_file st decompress p).2.archive_blocks = st.archive_blocks ∧
    (extract_file st decompress p).2.aarc_table = st.aarc_table ∧
    (extract_file st decompress p).2.files = st.files ∧
    (extract_file st decompress p).2.root_block = st.root_block ∧
    (extract_file st decompress p).2.archive_data = st.archive_data := by
  refine ⟨?_, ?_, ?_, ?_, ?_, ?_⟩ <;>
    · unfold extract_file
      repeat' first | split | dsimp only

theorem extract_result_master {st st2 : ArchiveState} (decompress : Bytes → Option Bytes)
    (p : String) {e e2 : FileEntry}
    (hf : get_file_info st p = some e) (hf2 : get_file_info st2 p = some e2)
    (hsha : e2.sha_hash = e.sha_hash) (hflag : e2.flags = e.flags)
    (ha : st2.aarc_table = st.aarc_table) (hb : st2.archive_blocks = st.archive_blocks)
    (hd : st2.archive_data = st.archive_data) :
    (extract_file st2 decompress p).1 = (extract_file st decompress p).1 := by
  cases ha0 : dictGet st.aarc_table e.sha_hash with
  | none =>
    have ha0' : dictGet st2.aarc_table e2.sha_hash = none := by rw [ha, hsha]; exact ha0
    have l : (extract_file st2 decompress p).1 = .contentMissing := by
      simp only [extract_file, hf2, ha0']
    have r : (extract_file st decompress p).1 = .contentMissing := by
      simp only [extract_file, hf, ha0]
    rw [l, r]
  | some ae =>
    have ha0' : dictGet st2.aarc_table e2.sha_hash = some ae := by rw [ha, hsha]; exact ha0
    cases hb0 : st.archive_blocks.get? ae.block_index with
    | none =>
      have hb0' : st2.archive_blocks.get? ae.block_index = none := by rw [hb]; exact hb0
      have l : (extract_file st2 decompress p).1 = .blockOutOfRange := by
        simp only [extract_file, hf2, ha0', hb0']
      have r : (extract_file st decompress p).1 = .blockOutOfRange := by
        simp only [extract_file, hf, ha0, hb0]
      rw [l, r]
    | some block =>
      have hb0' : st2.archive_blocks.get? ae.block_index = some block := by rw [hb]; exact hb0
      have hcomp : e2.is_compressed = e.is_compressed := by
        unfold FileEntry.is_compressed; rw [hflag]
      by_cases hc : e.is_compressed = true
      · cases hdc : decompress (readRaw st.archive_data block.offset block.block_size) with
        | none =>
          have l : (extract_file st2 decompress p).1 = .corruptPayload := by
            simp only [extract_file, hf2, ha0', hb0', hd, hcomp, hc, if_true, hdc]
          have r : (extract_file st decompress p).1 = .corruptPayload := by
            simp only [extract_file, hf, ha0, hb0, hc, if_true, hdc]
          rw [l, r]
        | some d2 =>
          have l : (extract_file st2 decompress p).1 = .ok d2 := by
            simp only [extract_file, hf2, ha0', hb0', hd, hcomp, hc, if_true, hdc]
          have r : (extract_file st decompress p).1 = .ok d2 := by
            simp only [extract_file, hf, ha0, hb0, hc, if_true, hdc]
          rw [l, r]
      · have hc2 : e.is_compressed = false := by
          cases hcc : e.is_compressed
          · rfl
          · exact absurd hcc hc
        have l : (extract_file st2 decompress p).1 =
            .ok (readRaw st.archive_data block.offset block.block_size) := by
          simp only [extract_file, hf2, ha0', hb0', hd, hcomp, hc2, Bool.false_eq_true, if_false]
        have r : (extract_file st decompress p).1 =
            .ok (readRaw st.archive_data block.offset block.block_size) := by
          simp only [extract_file, hf, ha0, hb0, hc2, Bool.false_eq_true, if_false]
        rw [l, r]

theorem extract_result_congr {st st2 : ArchiveState} (decompress : Bytes → Option Bytes)
    (p : String)
    (hf : st2.files = st.files) (ha : st2.aarc_table = st.aarc_table)
    (hb : st2.archive_blocks = st.archive_blocks) (hd : st2.archive_data = st.archive_data) :
    (extract_file st2 decompress p).1 = (extract_file st decompress p).1 := by
  have hgf : get_file_info st2 p = get_file_info st p := by
    unfold get_file_info; rw [hf]
  cases hf0 : get_file_info st p with
  | none =>
    have l : (extract_file st2 decompress p).1 = .notFound := by
      simp only [extract_file, hgf, hf0]
    have r : (extract_file st decompress p).1 = .notFound := by
      simp only [extract_file, hf0]
    rw [l, r]
  | some e =>
    exact extract_result_master decompress p hf0 (hgf.trans hf0) rfl rfl ha hb hd

/-! ### Claim theorems -/

/-- C1 (counterexample): on an index file with wrong PACK magic, `open`
fails with the invalid-magic error, yet both already-opened backing file
handles remain open — not zero, as the claim requires. -/
theorem C1_counterexample :
    openArchive badIdx [] 1 = some ⟨.error .invalidMagic, 2⟩ ∧ (2 : Nat) ≠ 0 :=
  ⟨rfl, by decide⟩

/-- C1 (amended): when any parse step during `open` fails, the two
already-opened backing file handles are NOT released before `open`
returns — both remain open on every failing path (`open` has no
try/finally and never calls `close`); they are only released by an
explicit later `close`. -/
theorem C1_theorem (idx arc : Bytes) (fuel : Nat) (o : OpenOutcome) (e : PErr)
    (h : openArchive idx arc fuel = some o) (hr : o.result = .error e) :
    o.handlesOpen = 2 := by
  unfold openArchive at h
  cases h1 : parse_index_header idx with
  | error e1 =>
    rw [h1] at h
    simp only [Option.some.injEq] at h
    rw [← h]
  | ok ir =>
    obtain ⟨iblocks, root⟩ := ir
    rw [h1] at h
    simp only [] at h
    cases h2 : parse_archive_header arc with
    | error e2 =>
      rw [h2] at h
      simp only [Option.some.injEq] at h
      rw [← h]
    | ok at3 =>
      obtain ⟨ablocks, aarc, end_pos⟩ := at3
      rw [h2] at h
      simp only [] at h
      cases h3 : parseDirectory idx iblocks fuel root "" [] with
      | none => rw [h3] at h; simp at h
      | some r =>
        cases r with
        | error e3 =>
          rw [h3] at h
          simp only [Option.some.injEq] at h
          rw [← h]
        | ok files =>
          rw [h3] at h
          simp only [Option.some.injEq] at h
          rw [← h] at hr
          simp at hr

theorem C1_witness : ((openArchive badIdx [] 1).getD default).handlesOpen = 2 :=
  C1_theorem badIdx [] 1 ((openArchive badIdx [] 1).getD default) .invalidMagic rfl rfl

/-- C2 (counterexample): the tree walker does not use 40-byte file
records.  On concrete input the record parse consumes 52 bytes, not 40,
and for a block of declared length 132 with 0 directories and 2 files
the reader's string-table size is `132 − 8 − 2*56 = 12`, not the
claimed `132 − 8 − 2*40 = 44`. -/
theorem C2_counterexample :
    parseFileRecord (List.replicate 60 0) 0 = .ok (⟨0, 0, 0, 0, List.replicate 20 0⟩, 52) ∧
    (52 : Nat) ≠ 0 + 40 ∧
    string_table_size 132 (data_size 0 2) = 12 ∧
    (132 : Int) - 8 - (0 * 8 + 2 * 40) = 44 ∧
    (12 : Int) ≠ 44 :=
  ⟨rfl, by decide, by decide, by decide, by decide⟩

/-- C2 (amended): in every directory block each file record read
consumes exactly 52 bytes (reads of 4+4+4+8+8+20+4 bytes), while the
string table is located by a different stride: it is taken to occupy the
final `block.length − 8 − (dirs*8 + files*56)` bytes of the block. -/
theorem C2_theorem :
    (∀ (idx : Bytes) (pos : Nat) (r : RawFile) (pos2 : Nat),
        parseFileRecord idx pos = .ok (r, pos2) → pos2 = pos + 52) ∧
    (∀ block_size num_dirs num_files : Nat,
        string_table_size block_size (data_size num_dirs num_files) =
          (block_size : Int) - 8 - (num_dirs * 8 + num_files * 56)) := by
  constructor
  · exact fun idx pos r pos2 h => parseFileRecord_pos h
  · intro bs nd nf
    unfold string_table_size data_size
    push_cast
    ring

theorem C2_witness : (52 : Nat) = 0 + 52 :=
  C2_theorem.1 (List.replicate 60 0) 0 ⟨0, 0, 0, 0, List.replicate 20 0⟩ 52 rfl

/-- C3 (counterexample): in a block whose string table is `[120, 121]`
(no NUL anywhere, so the lookup at offset 0 finds no terminator), the
walker does not skip the record and raises no error: the walk succeeds
and the record is inserted into the map (under the garbage name `x`
produced by the `[0:-1]` slice), so the map is not empty as the claim
requires. -/
theorem C3_counterexample :
    parseDirectory nonulIdx nonulBlocks 1 0 "" [] = some (.ok [("x", nonulEntry)]) ∧
    findZeroFrom [120, 121] 0 = -1 ∧
    [("x", nonulEntry)] ≠ ([] : FilesMap) :=
  ⟨rfl, rfl, by decide⟩

/-- C3 (amended): for a record whose name offset finds no terminating
NUL in the string table, `find` returns `-1`, the name becomes the
best-effort decode of the slice from the offset up to (excluding) the
table's last byte, and the record is still inserted under that name —
nothing is skipped and no error is raised; the walk continues. -/
theorem C3_theorem (idx string_data : Bytes) (path_pfx : String) (pos : Nat)
    (files : FilesMap) (r : RawFile) (pos2 : Nat)
    (h : parseFileRecord idx pos = .ok (r, pos2))
    (hf : findZeroFrom string_data r.name_offset = -1) :
    parseFileEntries idx string_data path_pfx 1 pos files =
      .ok (dictSet files
            (strLower (path_pfx ++
              String.mk (utf8Decode (pySlice string_data r.name_offset (-1)))))
            ⟨String.mk (utf8Decode (pySlice string_data r.name_offset (-1))),
             path_pfx ++ String.mk (utf8Decode (pySlice string_data r.name_offset (-1))),
             r.flags, r.uncompressed_size, r.compressed_size, r.sha_hash⟩, pos2) := by
  simp only [parseFileEntries]
  rw [h]
  simp only [extractName, hf]

theorem C3_witness :
    parseFileEntries nonulIdx [120, 121] "" 1 8 [] =
      .ok (dictSet []
            (strLower ("" ++ String.mk (utf8Decode (pySlice [120, 121] 0 (-1)))))
            ⟨String.mk (utf8Decode (pySlice [120, 121] 0 (-1))),
             "" ++ String.mk (utf8Decode (pySlice [120, 121] 0 (-1))),
             0, 1, 1, List.replicate 20 0⟩, 60) :=
  C3_theorem nonulIdx [120, 121] "" 8 [] ⟨0, 0, 1, 1, List.replicate 20 0⟩ 60 rfl rfl

/-- C4 (counterexample): a parsed file whose name contains a backslash
is keyed by its lower-cased path with the backslash NOT normalised, and
a `get_file_info` query with the file's own full path (which IS
normalised) misses it: the claim's lookup guarantee fails. -/
theorem C4_counterexample :
    parseDirectory bsIdx bsBlocks 1 0 "" [] = some (.ok [("a\\b.txt", bsEntry)]) ∧
    bsEntry.full_path = "a\\b.txt" ∧
    bsSt.files = [("a\\b.txt", bsEntry)] ∧
    get_file_info bsSt bsEntry.full_path = none :=
  ⟨rfl, rfl, rfl, rfl⟩

/-- C4 (amended): every key of the map built by the tree walker is the
file's full path lower-cased (insertion applies `lower()` only — path
separators produced by the walk are already `/`, but a backslash inside
a name is kept verbatim); consequently a stat or extract query with a
file's full path finds its record whenever that path contains no
backslash. -/
theorem C4_theorem (idx : Bytes) (blocks : List PackDirectoryHeader) (fuel bi : Nat)
    (pfx : String) (files files2 : FilesMap)
    (h : parseDirectory idx blocks fuel bi pfx files = some (.ok files2))
    (hg : GoodMap files) :
    ∀ k e, (k, e) ∈ files2 → k = strLower e.full_path ∧
      ∀ st : ArchiveState, st.files = files2 → ('\\' : Char) ∉ e.full_path.data →
        get_file_info st e.full_path = some e := by
  intro k e hm
  have hg2 := parseDirectory_good idx blocks fuel bi pfx files files2 h hg
  refine ⟨hg2.2 k e hm, ?_⟩
  intro st hst hbs
  unfold get_file_info
  rw [hst, normalizeQuery_of_no_backslash hbs, ← hg2.2 k e hm]
  exact dictGet_of_mem hg2.1 hm

theorem C4_witness : get_file_info okSt okEntry.full_path = some okEntry :=
  (C4_theorem okIdx okBlocks 1 0 "" [] [("a.txt", okEntry)] rfl
      ⟨List.nodup_nil, by intro k e hm; cases hm⟩
      "a.txt" okEntry (List.mem_singleton.mpr rfl)).2
    okSt rfl (by decide)

/-- C5: for a file whose digest is absent from the content-address
table, opening the archive still succeeds (witnessed by the hypotheses
being satisfiable on a concrete archive), `get_file_info` still returns
the record, `list_files "*"` still lists the path, and `extract_file`
returns the recoverable content-missing result (the `return None` with
warning at lines 321-322) — not the raised `IndexError`, and without
touching the parsed state. -/
theorem C5_theorem (idx arc : Bytes) (fuel : Nat) (o : OpenOutcome) (st : ArchiveState)
    (p : String) (e : FileEntry) (decompress : Bytes → Option Bytes)
    (ho : openArchive idx arc fuel = some o) (hr : o.result = .ok st)
    (hf : dictGet st.files (normalizeQuery p) = some e)
    (ha : dictGet st.aarc_table e.sha_hash = none) :
    get_file_info st p = some e ∧
    e.full_path ∈ list_files st "*" ∧
    (extract_file st decompress p).1 = .contentMissing ∧
    (extract_file st decompress p).2 = st := by
  refine ⟨hf, ?_, ?_, ?_⟩
  · unfold list_files
    apply List.mem_map.mpr
    refine ⟨e, ?_, rfl⟩
    apply List.mem_filter.mpr
    refine ⟨dictGet_mem_values hf, ?_⟩
    have hp : (normalizeQuery "*").data = ['*'] := rfl
    rw [hp]
    exact fnmatch_star _
  · simp only [extract_file, get_file_info, hf, ha]
  · simp only [extract_file, get_file_info, hf, ha]

theorem C5_witness :
    get_file_info cSt "b.txt" = some entryB ∧
    entryB.full_path ∈ list_files cSt "*" ∧
    (extract_file cSt (fun _ => none) "b.txt").1 = .contentMissing ∧
    (extract_file cSt (fun _ => none) "b.txt").2 = cSt :=
  C5_theorem cIdx cArc 1 ⟨.ok cSt, 2⟩ cSt "b.txt" entryB (fun _ => none)
    cOpen_eq rfl rfl rfl

/-- C6: an entry is treated as compressed exactly when its flags field
equals the sentinel 3 (`is_compressed` is `flags == 3`), and for every
other flags value extraction returns the stored block bytes unmodified. -/
theorem C6_theorem :
    (∀ e : FileEntry, e.is_compressed = true ↔ e.flags = 3) ∧
    (∀ (st : ArchiveState) (decompress : Bytes → Option Bytes) (p : String)
        (e : FileEntry) (ae : AARCEntry) (block : PackDirectoryHeader),
        get_file_info st p = some e →
        dictGet st.aarc_table e.sha_hash = some ae →
        st.archive_blocks.get? ae.block_index = some block →
        e.flags ≠ 3 →
        (extract_file st decompress p).1 =
          .ok (readRaw st.archive_data block.offset block.block_size)) := by
  constructor
  · intro e
    unfold FileEntry.is_compressed
    exact beq_iff_eq
  · intro st dec p e ae block hf ha hb hfl
    have hc : e.is_compressed = false := by
      unfold FileEntry.is_compressed
      exact beq_eq_false_iff_ne.mpr hfl
    simp only [extract_file, hf, ha, hb, hc, Bool.false_eq_true, if_false]

theorem C6_witness :
    (extract_file st6 (fun _ => none) "f").1 = .ok (readRaw st6.archive_data 0 3) :=
  C6_theorem.2 st6 (fun _ => none) "f" entry6 ⟨0, sha5, 3⟩ ⟨0, 3⟩ rfl rfl rfl (by decide)

/-- Two patterns are case variants when they lower-case to the same
string (for example `ART/*.TEX` and `art/*.tex`). -/
def CaseVariant (p q : String) : Prop := strLower p = strLower q

/-- C7: pattern listing is case-insensitive and slash-normalised —
listing with a pattern and with any case variant of it returns identical
path lists, because `list_files` lower-cases and slash-normalises the
pattern before matching it against lower-cased paths. -/
theorem C7_theorem (st : ArchiveState) (p q : String) (h : CaseVariant p q) :
    list_files st p = list_files st q := by
  unfold list_files
  rw [show normalizeQuery p = normalizeQuery q by unfold normalizeQuery; rw [h]]

theorem C7_witness : list_files st6 "ART/*.TEX" = list_files st6 "art/*.tex" :=
  C7_theorem st6 "ART/*.TEX" "art/*.tex" rfl

/-- C8: extraction is idempotent and side-effect-free on the parsed
state: two successive `extract_file` calls for the same path return
identical results, and neither call changes the path→record map, the
block arrays, the digest table, or the data bytes (only the data
stream's cursor moves). -/
theorem C8_theorem (st : ArchiveState) (decompress : Bytes → Option Bytes) (p : String) :
    (extract_file (extract_file st decompress p).2 decompress p).1 =
      (extract_file st decompress p).1 ∧
    (extract_file st decompress p).2.files = st.files ∧
    (extract_file st decompress p).2.index_blocks = st.index_blocks ∧
    (extract_file st decompress p).2.archive_blocks = st.archive_blocks ∧
    (extract_file st decompress p).2.aarc_table = st.aarc_table ∧
    (extract_file st decompress p).2.archive_data = st.archive_data ∧
    (extract_file (extract_file st decompress p).2 decompress p).2.files = st.files ∧
    (extract_file (extract_file st decompress p).2 decompress p).2.archive_blocks =
      st.archive_blocks ∧
    (extract_file (extract_file st decompress p).2 decompress p).2.aarc_table =
      st.aarc_table := by
  obtain ⟨hi, hb, ha, hf, hr, hd⟩ := extract_file_preserves st decompress p
  obtain ⟨hi2, hb2, ha2, hf2, hr2, hd2⟩ :=
    extract_file_preserves (extract_file st decompress p).2 decompress p
  exact ⟨extract_result_congr decompress p hf ha hb hd, hf, hi, hb, ha, hd,
    hf2.trans hf, hb2.trans hb, ha2.trans ha⟩

/-- C9: the recursive walk terminates whenever the child-reference graph
reachable from the root admits a measure decreasing across every edge
(acyclicity); the walker performs no visited-block tracking, and on the
concrete self-referencing block `cycIdx`/`cycBlocks` (whose child list
is `[0]`, pointing back at itself) the walk exhausts every fuel bound —
the source recursion does not terminate. -/
theorem C9_theorem :
    (∀ (idx : Bytes) (blocks : List PackDirectoryHeader) (m : Nat → Nat) (root : Nat),
        (∀ b c, Reach idx blocks root b → c ∈ dirChildren idx blocks b → m c < m b) →
        ∀ fuel, m root < fuel →
          ∀ pfx files, parseDirectory idx blocks fuel root pfx files ≠ none) ∧
    dirChildren cycIdx cycBlocks 0 = [0] ∧
    (∀ fuel pfx files, parseDirectory cycIdx cycBlocks fuel 0 pfx files = none) := by
  refine ⟨?_, rfl, ?_⟩
  · intro idx blocks m root hm fuel hlt pfx files
    exact walk_terminates_aux idx blocks m root hm fuel root Reach.refl hlt pfx files
  · intro fuel
    induction fuel with
    | zero => intro pfx files; rfl
    | succ fuel ih =>
      intro pfx files
      have hstep : parseDirectory cycIdx cycBlocks (fuel + 1) 0 pfx files =
          match parseDirectory cycIdx cycBlocks fuel 0
              (mkSubdirPath pfx
                (extractName (readStringTable cycIdx 16 (string_table_size 20 8)) 0))
              files with
          | none => none
          | some (.error e) => some (.error e)
          | some (.ok files2) =>
            walkChildren (parseDirectory cycIdx cycBlocks fuel) [] files2 := rfl
      rw [hstep, ih]

theorem C9_witness : parseDirectory leafIdx leafBlocks 1 0 "" [] ≠ none :=
  C9_theorem.1 leafIdx leafBlocks (fun _ => 0) 0
    (by
      have hb : ∀ b, Reach leafIdx leafBlocks 0 b → b = 0 := by
        intro b h
        induction h with
        | refl => rfl
        | step hb2 hc ih =>
          rw [ih] at hc
          rw [show dirChildren leafIdx leafBlocks 0 = [] from rfl] at hc
          cases hc
      intro b c hr hc
      rw [hb b hr] at hc
      rw [show dirChildren leafIdx leafBlocks 0 = [] from rfl] at hc
      cases hc)
    1 (by decide) "" []

/-- A copy of `st6` whose stored entry has different size fields
(uncompressed 77, compressed 99) but the same digest and flags. -/
def st10 : ArchiveState :=
  ⟨[], [⟨0, 3⟩], [(sha5, ⟨0, sha5, 3⟩)], [("f", ⟨"f", "f", 0, 77, 99, sha5⟩)], 0, [9, 8, 7], 0⟩

/-- C10: for a stored-raw entry, extraction returns exactly the bytes
read for the resolved block — `block.block_size` bytes when the block
lies inside the data stream — and the record's size fields are never
consulted: changing `uncompressed_size`/`compressed_size` of the stored
record (for any flags value, compressed included) leaves the extraction
result unchanged, so no length is ever validated against them. -/
theorem C10_theorem :
    (∀ (st : ArchiveState) (decompress : Bytes → Option Bytes) (p : String)
        (e : FileEntry) (ae : AARCEntry) (block : PackDirectoryHeader),
        get_file_info st p = some e →
        dictGet st.aarc_table e.sha_hash = some ae →
        st.archive_blocks.get? ae.block_index = some block →
        e.flags ≠ 3 →
        (extract_file st decompress p).1 =
          .ok (readRaw st.archive_data block.offset block.block_size) ∧
        (block.offset + block.block_size ≤ st.archive_data.length →
          (readRaw st.archive_data block.offset block.block_size).length =
            block.block_size)) ∧
    (∀ (st st2 : ArchiveState) (decompress : Bytes → Option Bytes) (p : String)
        (e : FileEntry) (u2 c2 : Nat),
        get_file_info st p = some e →
        st2.files = dictSet st.files (normalizeQuery p)
          ⟨e.name, e.full_path, e.flags, u2, c2, e.sha_hash⟩ →
        st2.aarc_table = st.aarc_table → st2.archive_blocks = st.archive_blocks →
        st2.archive_data = st.archive_data →
        (extract_file st2 decompress p).1 = (extract_file st decompress p).1) := by
  constructor
  · intro st dec p e ae block hf ha hb hfl
    constructor
    · have hc : e.is_compressed = false := by
        unfold FileEntry.is_compressed
        exact beq_eq_false_iff_ne.mpr hfl
      simp only [extract_file, hf, ha, hb, hc, Bool.false_eq_true, if_false]
    · intro hle
      unfold readRaw
      rw [List.length_take, List.length_drop]
      omega
  · intro st st2 dec p e u2 c2 hf hfs ha hb hd
    have hf2 : get_file_info st2 p = some ⟨e.name, e.full_path, e.flags, u2, c2, e.sha_hash⟩ := by
      unfold get_file_info
      rw [hfs]
      exact dictGet_dictSet_self _ _ _
    exact extract_result_master dec p hf hf2 rfl rfl ha hb hd

theorem C10_witness :
    ((extract_file st6 (fun _ => none) "f").1 = .ok (readRaw st6.archive_data 0 3) ∧
      (0 + 3 ≤ st6.archive_data.length →
        (readRaw st6.archive_data 0 3).length = 3)) ∧
    (extract_file st10 (fun _ => none) "f").1 = (extract_file st6 (fun _ => none) "f").1 :=
  ⟨C10_theorem.1 st6 (fun _ => none) "f" entry6 ⟨0, sha5, 3⟩ ⟨0, 3⟩ rfl rfl rfl (by decide),
   C10_theorem.2 st6 st10 (fun _ => none) "f" entry6 77 99 rfl rfl rfl rfl rfl⟩
